import Mathlib

/-!
Verification of the web-scraper pipeline in `src/web_scraper_api.py`.

The Python program is shallowly embedded: strings become `List Char`,
the parsed HTML tree (the BeautifulSoup object) becomes an inductive node
tree, network behaviour becomes an explicit oracle value per request, and
raised exceptions become `Except` errors.  All definitions are executable.
-/

namespace WebScraper

/-- A Python string, modelled as its list of characters. -/
abbrev PyStr := List Char

/-- The ASCII whitespace characters removed by Python's `str.strip()`
(the embedding restricts attention to ASCII whitespace). -/
def pyIsSpace (c : Char) : Bool :=
  c == ' ' || c == '\t' || c == '\n' || c == '\r' || c == '\x0b' || c == '\x0c'

/-- Python `line.strip()`: drop whitespace from both ends. -/
def trim (l : PyStr) : PyStr :=
  (l.dropWhile pyIsSpace).rdropWhile pyIsSpace

/-- Python `text.split("\n")`: split at every newline, keeping empty pieces,
so the result always has one more piece than there are newlines. -/
def splitNl : PyStr → List PyStr
  | [] => [[]]
  | c :: cs =>
    if c = '\n' then [] :: splitNl cs
    else
      match splitNl cs with
      | [] => [[c]]
      | l :: ls => (c :: l) :: ls

/-- Model of `re.sub(r'\n{2,}', '\n', text)` (line 34 of the source): a newline that is
immediately followed by another newline is dropped, so every maximal run of
two or more newlines collapses to a single newline. -/
def collapseNl : PyStr → PyStr
  | [] => []
  | [c] => [c]
  | c :: c₂ :: cs =>
    if c = '\n' ∧ c₂ = '\n' then collapseNl (c₂ :: cs)
    else c :: collapseNl (c₂ :: cs)

/-- Test whether `needle` occurs at the start of `hay`. -/
def startsWithL : PyStr → PyStr → Bool
  | [], _ => true
  | _ :: _, [] => false
  | a :: na, b :: nb => a == b && startsWithL na nb

/-- The Python substring test `needle in hay`. -/
def hasSub (needle : PyStr) : PyStr → Bool
  | [] => needle.isEmpty
  | c :: rest => startsWithL needle (c :: rest) || hasSub needle rest

/-- The `blacklist_keywords` list from line 36 of the source. -/
def blacklist_keywords : List PyStr :=
  ["Sign In".toList, "Sign Out".toList, "All Articles".toList, "Home".toList]

/-- Model of `clean_text` (lines 31–39 of the source): collapse newline runs, split
on newlines, keep the stripped form of each line whose stripped form is
non-empty, then drop every line containing a blacklisted substring. -/
def clean_text (text : PyStr) : List PyStr :=
  let t := collapseNl text
  let lines := ((splitNl t).filter (fun line => !(trim line).isEmpty)).map trim
  lines.filter (fun line => blacklist_keywords.all (fun bad => !(hasSub bad line)))

example : clean_text ("A\n\n\nB\nSign In\nC".toList) =
    ["A".toList, "B".toList, "C".toList] := by decide

example : clean_text ("Homework".toList) = [] := by decide

example : clean_text ("home".toList) = ["home".toList] := by decide

example : clean_text ("  x  \n\n y\n".toList) = ["x".toList, "y".toList] := by decide

/-!
The parsed HTML document.

`scrape_url` works on the tree produced by `BeautifulSoup(html, "html.parser")`.
The embedding works directly with such trees: a document is the list of
top-level nodes, each node a text node (`NavigableString`) or an element
(`Tag`) with a name, attributes and children.  BeautifulSoup's lenient
parser never raises, so the parse step itself is total and is abstracted by
letting the network oracle deliver the already-parsed tree of the body.
-/

/-- A node of the parsed HTML tree. -/
inductive Node where
  | text (s : PyStr)
  | elem (name : String) (attrs : List (String × PyStr)) (children : List Node)

/-- A parsed document: the top-level nodes of the soup. -/
abbrev Doc := List Node

/-- Holds when `n` is a `Tag` whose name is `nm`. -/
def isNamed (nm : String) : Node → Bool
  | .text _ => false
  | .elem name _ _ => name = nm

mutual

/-- A node followed by its descendants, depth first. -/
def preorderN : Node → List Node
  | .text s => [.text s]
  | .elem nm a c => .elem nm a c :: preorder c
termination_by structural n => n

/-- All nodes of a forest in document order (each node before its
descendants, depth first) — the order in which BeautifulSoup's `find` and
`find_all` visit the tree. -/
def preorder : Doc → List Node
  | [] => []
  | n :: ns => preorderN n ++ preorder ns
termination_by structural d => d

end

mutual

/-- Depth-first search of one node and its descendants for a `Tag` named
`nm`. -/
def findTagN (nm : String) : Node → Option Node
  | .text _ => none
  | .elem name a c =>
    if name = nm then some (.elem name a c) else findTag nm c
termination_by structural n => n

/-- Model of `soup.find(nm)` (also attribute access such as `soup.body` or
`soup.title`): the first `Tag` named `nm` in document order. -/
def findTag (nm : String) : Doc → Option Node
  | [] => none
  | n :: ns =>
    match findTagN nm n with
    | some r => some r
    | none => findTag nm ns
termination_by structural d => d

end

/-- Attribute lookup `tag.get(key)` on an element's attribute list. -/
def attrGet (key : String) : List (String × PyStr) → Option PyStr
  | [] => none
  | (k, v) :: rest => if k = key then some v else attrGet key rest

mutual

/-- The `NavigableString` descendants of one node, in document order. -/
def nodeStrings : Node → List PyStr
  | .text s => [s]
  | .elem _ _ c => forestStrings c
termination_by structural n => n

/-- The `NavigableString` descendants of a forest, in document order. -/
def forestStrings : Doc → List PyStr
  | [] => []
  | n :: ns => nodeStrings n ++ forestStrings ns
termination_by structural d => d

end

/-- Model of `tag.get_text(separator=sep, strip=True)`: strip every descendant
string, drop the ones that become empty, join with the separator. -/
def getTextStrip (sep : PyStr) (n : Node) : PyStr :=
  List.intercalate sep (((nodeStrings n).map trim).filter (fun s => !s.isEmpty))

/-- Model of `tag.string`: the single text node wrapped by a tag, reached through a
chain of single-child tags; `none` whenever a tag on the chain does not have
exactly one child. -/
def tagString : Node → Option PyStr
  | .text s => some s
  | .elem _ _ c =>
    match c with
    | [c₀] => tagString c₀
    | _ => none
termination_by structural n => n

/-- Line 63: `soup.title.string.strip() if soup.title and soup.title.string
else ""`.  A found `Tag` is always truthy (bs4 `Tag.__bool__` returns
`True`), while an empty string value for `.string` is falsy. -/
def titleOf (doc : Doc) : PyStr :=
  match findTag "title" doc with
  | none => []
  | some t =>
    match tagString t with
    | none => []
    | some s => if s.isEmpty then [] else trim s

/-- Lines 65–73: `soup.find("meta", attrs={"name": nm})` followed by
`if tag and tag.get("content")`; an empty `content` value is falsy. -/
def metaOf (nm : String) (doc : Doc) : PyStr :=
  match (preorder doc).find?
      (fun n =>
        match n with
        | .elem "meta" a _ => attrGet "name" a == some nm.toList
        | _ => false) with
  | none => []
  | some (.elem _ a _) =>
    match attrGet "content" a with
    | none => []
    | some v => if v.isEmpty then [] else v
  | some (.text _) => []

/-- Line 75: `[h.get_text(strip=True) for h in soup.find_all(['h1', 'h2'])]`. -/
def headersOf (doc : Doc) : List PyStr :=
  ((preorder doc).filter (fun n => isNamed "h1" n || isNamed "h2" n)).map
    (getTextStrip [])

/-- Line 77: `soup.find("main") or soup.find("article") or soup.body`.
Every found `Tag` is truthy, so the `or` chain takes the first successful
find. -/
def contentNode (doc : Doc) : Option Node :=
  match findTag "main" doc with
  | some m => some m
  | none =>
    match findTag "article" doc with
    | some a => some a
    | none => findTag "body" doc

/-- Line 78: `main_content.get_text(separator="\n", strip=True) if
main_content else ""`. -/
def contentTextOf (doc : Doc) : PyStr :=
  match contentNode doc with
  | none => []
  | some n => getTextStrip ['\n'] n

/-- The test-vector document `<main><h1>T</h1><p>Body</p></main>`. -/
def exDoc : Doc :=
  [Node.elem "main" []
    [Node.elem "h1" [] [Node.text "T".toList],
     Node.elem "p" [] [Node.text "Body".toList]]]

example : titleOf exDoc = [] := by decide
example : headersOf exDoc = ["T".toList] := by decide
example : contentTextOf exDoc = "T\nBody".toList := by decide
example : metaOf "description" exDoc = [] := by decide

/-!
Fetching and scraping.

Network behaviour is an explicit oracle: for each request it tells whether
the GET produced a response (status plus parsed body), timed out, or failed
with some other transport fault.  A raised `HTTPException(status_code,
detail)` becomes an `Except.error`; Python's `str(e)` on it renders as
`"{status_code}: {detail}"`.
-/

/-- Outcome of one `session.get` call, as seen by `fetch_html`. -/
inductive NetResult where
  | response (status : Nat) (body : Doc)
  | timeout
  | netError (msg : String)

/-- Model of `fastapi.HTTPException`: a status code and a detail message. -/
structure HTTPExc where
  status_code : Nat
  detail : String

/-- Python `str(e)` for an `HTTPException`. -/
def strOfExc (e : HTTPExc) : String :=
  toString e.status_code ++ ": " ++ e.detail

/-- Model of `fetch_html` (lines 42–56).  Note that the
`HTTPException(status_code=response.status, ...)` raised for a non-200
status on line 47 is raised inside the function's own `try` block, so it is
caught by the `except Exception` clause on lines 54–56 and re-raised as a
500 whose detail embeds `str` of the original exception.  The
`HTTPException(504, ...)` for a timeout is raised inside an `except` clause
and therefore escapes with status 504. -/
def fetch_html (url : String) (net : NetResult) : Except HTTPExc Doc :=
  match net with
  | .response status body =>
    if status = 200 then .ok body
    else
      .error ⟨500, "Error fetching " ++ url ++ ": " ++
        strOfExc ⟨status, "Failed to fetch " ++ url⟩⟩
  | .timeout => .error ⟨504, "Timeout while fetching " ++ url⟩
  | .netError msg => .error ⟨500, "Error fetching " ++ url ++ ": " ++ msg⟩

/-- Metadata record returned by `scrape_url` (lines 82–87). -/
structure PageMetadata where
  title : PyStr
  meta_description : PyStr
  meta_keywords : PyStr
  headers : List PyStr

/-- Result record returned by `scrape_url` (lines 80–89). -/
structure ScrapeResult where
  url : String
  metadata : PageMetadata
  content : PyStr

/-- Extraction part of `scrape_url` (lines 61–89): build the result record
from the parsed document.  Every step is total, so the extraction itself
never raises. -/
def extract (url : String) (doc : Doc) : ScrapeResult :=
  { url := url
    metadata :=
      { title := titleOf doc
        meta_description := metaOf "description" doc
        meta_keywords := metaOf "keywords" doc
        headers := headersOf doc }
    content := contentTextOf doc }

/-- Model of `scrape_url` (lines 58–93).  Any exception raised inside the
`try` block — in particular every `HTTPException` raised by `fetch_html`,
whatever its status — is caught by the `except Exception` clause on lines
91–93 and re-raised as `HTTPException(500, "Error parsing HTML for ...")`. -/
def scrape_url (url : String) (net : NetResult) : Except HTTPExc ScrapeResult :=
  match fetch_html url net with
  | .ok doc => .ok (extract url doc)
  | .error e =>
    .error ⟨500, "Error parsing HTML for " ++ url ++ ": " ++ strOfExc e⟩

/-- One slot of the batch output (lines 109–118): either the result record
of `scrape_url` or the failure record `{"url": url, "error": str(result)}`. -/
inductive Outcome where
  | success (result : ScrapeResult)
  | failure (url : String) (error : String)

/-- The slot the batch produces for one URL: `asyncio.gather(...,
return_exceptions=True)` turns a raised exception into a returned value,
which lines 110–118 convert into the failure record for that URL. -/
def outcomeOf (url : String) (net : NetResult) : Outcome :=
  match scrape_url url net with
  | .ok r => .success r
  | .error e => .failure url (strOfExc e)

/-- Model of `scrape_batch` (lines 103–120): one task per URL, results
collected in input order (`asyncio.gather` preserves the order of its
arguments), the `i`-th slot built from the `i`-th URL and the behaviour of
the `i`-th request.  The network oracle is indexed by position so that
duplicate URLs keep independent requests. -/
def scrape_batch : List String → (Nat → NetResult) → List Outcome
  | [], _ => []
  | u :: us, net =>
    outcomeOf u (net 0) :: scrape_batch us (fun i => net (i + 1))

/-- The URL echoed by a slot. -/
def outcomeUrl : Outcome → String
  | .success r => r.url
  | .failure u _ => u

example : fetch_html "u" .timeout =
    .error ⟨504, "Timeout while fetching u"⟩ := rfl

example : scrape_url "u" .timeout =
    .error ⟨500, "Error parsing HTML for u: 504: Timeout while fetching u"⟩ := rfl

example : fetch_html "u" (.response 404 []) =
    .error ⟨500, "Error fetching u: 404: Failed to fetch u"⟩ := rfl

example : scrape_url "u" (.response 404 []) =
    .error ⟨500,
      "Error parsing HTML for u: 500: Error fetching u: 404: Failed to fetch u"⟩ := rfl

example :
    scrape_batch ["a", "b"]
      (fun i => if i = 0 then .timeout else .response 200 exDoc) =
    [.failure "a" "500: Error parsing HTML for a: 504: Timeout while fetching a",
     .success (extract "b" exDoc)] := rfl

/-!
Lemmas about the text normalizer.
-/

theorem startsWithL_iff (n : PyStr) :
    ∀ h : PyStr, startsWithL n h = true ↔ ∃ q, h = n ++ q := by
  induction n with
  | nil =>
    intro h
    constructor
    · intro _; exact ⟨h, rfl⟩
    · intro _; rfl
  | cons a na ih =>
    intro h
    cases h with
    | nil =>
      simp [startsWithL]
    | cons b nb =>
      simp only [startsWithL, Bool.and_eq_true, beq_iff_eq, ih,
        List.cons_append, List.cons_eq_cons]
      constructor
      · rintro ⟨rfl, q, rfl⟩; exact ⟨q, rfl, rfl⟩
      · rintro ⟨q, rfl, rfl⟩; exact ⟨rfl, q, rfl⟩

theorem hasSub_iff (n : PyStr) :
    ∀ h : PyStr, hasSub n h = true ↔ ∃ p q, h = p ++ n ++ q := by
  intro h
  induction h with
  | nil =>
    simp only [hasSub, List.isEmpty_iff]
    constructor
    · rintro rfl; exact ⟨[], [], rfl⟩
    · rintro ⟨p, q, hpq⟩
      rcases List.append_eq_nil.mp hpq.symm with ⟨hpn, rfl⟩
      exact (List.append_eq_nil.mp hpn).2
  | cons c rest ih =>
    simp only [hasSub, Bool.or_eq_true, startsWithL_iff, ih]
    constructor
    · rintro (⟨q, hq⟩ | ⟨p, q, rfl⟩)
      · exact ⟨[], q, by simpa using hq⟩
      · exact ⟨c :: p, q, rfl⟩
    · rintro ⟨p, q, hpq⟩
      cases p with
      | nil => exact Or.inl ⟨q, by simpa using hpq⟩
      | cons p₀ ps =>
        rcases List.cons_eq_cons.mp hpq with ⟨rfl, hrest⟩
        exact Or.inr ⟨ps, q, hrest⟩

theorem trim_nil : trim ([] : PyStr) = [] := rfl

theorem dropWhile_trim (l : PyStr) :
    (trim l).dropWhile pyIsSpace = trim l := by
  unfold trim
  rcases hy : (l.dropWhile pyIsSpace).rdropWhile pyIsSpace with _ | ⟨y₀, ys⟩
  · rfl
  · have hpre : (y₀ :: ys) <+: l.dropWhile pyIsSpace :=
      hy ▸ List.rdropWhile_prefix pyIsSpace (l.dropWhile pyIsSpace)
    have hne : l.dropWhile pyIsSpace ≠ [] := by
      rintro hnil
      rw [hnil] at hpre
      exact absurd (List.prefix_nil.mp hpre) (by simp)
    have hhead : y₀ = (l.dropWhile pyIsSpace).head hne := by
      simpa using hpre.head (by simp)
    have : pyIsSpace y₀ = false := by
      rw [hhead]; exact List.head_dropWhile_not pyIsSpace l hne
    simp [List.dropWhile_cons, this]

theorem trim_idem (l : PyStr) : trim (trim l) = trim l := by
  conv_lhs => rw [trim, dropWhile_trim]
  rw [trim]
  exact List.rdropWhile_idempotent _ _

theorem mem_of_mem_trim {c : Char} {l : PyStr} (h : c ∈ trim l) : c ∈ l := by
  have hp := List.rdropWhile_prefix pyIsSpace (l.dropWhile pyIsSpace)
  have h₁ : c ∈ l.dropWhile pyIsSpace := hp.subset h
  exact (List.dropWhile_suffix pyIsSpace).subset h₁

theorem splitNl_decomp (s : PyStr) :
    ∃ t, splitNl s = s.takeWhile (fun c => !(c == '\n')) :: t := by
  induction s with
  | nil => exact ⟨[], rfl⟩
  | cons c cs ih =>
    by_cases hc : c = '\n'
    · subst hc
      exact ⟨splitNl cs, by simp [splitNl]⟩
    · obtain ⟨t, ht⟩ := ih
      refine ⟨t, ?_⟩
      simp [splitNl, hc, ht]

theorem mem_splitNl_no_nl (s : PyStr) : ∀ l ∈ splitNl s, '\n' ∉ l := by
  induction s with
  | nil =>
    intro l hl
    simp only [splitNl, List.mem_singleton] at hl
    simp [hl]
  | cons c cs ih =>
    intro l hl
    by_cases hc : c = '\n'
    · subst hc
      simp only [splitNl, if_pos rfl] at hl
      cases hl with
      | head => simp
      | tail _ h => exact ih l h
    · obtain ⟨t, ht⟩ := splitNl_decomp cs
      have hsplit : splitNl (c :: cs) =
          (c :: cs.takeWhile (fun x => !(x == '\n'))) :: t := by
        simp [splitNl, hc, ht]
      rw [hsplit] at hl
      rcases List.mem_cons.mp hl with rfl | hl
      · intro hmem
        rcases List.mem_cons.mp hmem with h | h
        · exact hc h.symm
        · have := List.mem_takeWhile_imp h
          simp at this
      · have : l ∈ splitNl cs := by rw [ht]; exact List.mem_cons_of_mem _ hl
        exact ih l this

theorem splitNl_cons_of_eq {c : Char} (hc : ¬c = '\n') {s h : PyStr}
    {t : List PyStr} (hs : splitNl s = h :: t) :
    splitNl (c :: s) = (c :: h) :: t := by
  conv_lhs => rw [splitNl.eq_def]
  dsimp only
  rw [if_neg hc, hs]

theorem collapse_key (s : PyStr) :
    (splitNl (collapseNl s)).headI = (splitNl s).headI ∧
    (splitNl (collapseNl s)).filter (fun l => !l.isEmpty) =
      (splitNl s).filter (fun l => !l.isEmpty) := by
  induction s using collapseNl.induct with
  | case1 => exact ⟨rfl, rfl⟩
  | case2 c => exact ⟨rfl, rfl⟩
  | case3 c c₂ cs h ih =>
    obtain ⟨hc, hc₂⟩ := h
    subst hc; subst hc₂
    have hcol : collapseNl ('\n' :: '\n' :: cs) = collapseNl ('\n' :: cs) := by
      simp [collapseNl]
    rw [hcol]
    refine ⟨?_, ?_⟩
    · rw [ih.1]; simp [splitNl]
    · rw [ih.2]; simp [splitNl, List.filter_cons]
  | case4 c c₂ cs h ih =>
    have hcol : collapseNl (c :: c₂ :: cs) = c :: collapseNl (c₂ :: cs) := by
      simp [collapseNl, h]
    rw [hcol]
    by_cases hc : c = '\n'
    · subst hc
      refine ⟨?_, ?_⟩
      · simp [splitNl]
      · have h2 := ih.2
        simp only [splitNl, if_pos rfl, List.filter_cons]
        simpa using h2
    · obtain ⟨tX, hX⟩ := splitNl_decomp (collapseNl (c₂ :: cs))
      obtain ⟨tO, hO⟩ := splitNl_decomp (c₂ :: cs)
      have hhead : (collapseNl (c₂ :: cs)).takeWhile (fun x => !(x == '\n')) =
          (c₂ :: cs).takeWhile (fun x => !(x == '\n')) := by
        have h1 := ih.1
        rw [hX, hO] at h1
        simpa using h1
      have hsX : splitNl (c :: collapseNl (c₂ :: cs)) =
          (c :: (c₂ :: cs).takeWhile (fun x => !(x == '\n'))) :: tX := by
        rw [splitNl_cons_of_eq hc hX, hhead]
      have hsO : splitNl (c :: c₂ :: cs) =
          (c :: (c₂ :: cs).takeWhile (fun x => !(x == '\n'))) :: tO :=
        splitNl_cons_of_eq hc hO
      have htails : tX.filter (fun l => !l.isEmpty) =
          tO.filter (fun l => !l.isEmpty) := by
        have h2 := ih.2
        rw [hX, hO, hhead] at h2
        by_cases hw : ((c₂ :: cs).takeWhile (fun x => !(x == '\n'))).isEmpty
        · simpa [List.filter_cons, hw] using h2
        · rw [List.filter_cons, List.filter_cons] at h2
          simp only [hw, Bool.not_false, if_true] at h2
          exact (List.cons_eq_cons.mp h2).2
      rw [hsX, hsO]
      exact ⟨rfl, by simp [List.filter_cons, htails]⟩

theorem filter_trimKeep_collapse (s : PyStr) :
    (splitNl (collapseNl s)).filter (fun l => !(trim l).isEmpty) =
      (splitNl s).filter (fun l => !(trim l).isEmpty) := by
  have habs : ∀ L : List PyStr,
      L.filter (fun l => !(trim l).isEmpty) =
        (L.filter (fun l => !l.isEmpty)).filter (fun l => !(trim l).isEmpty) := by
    intro L
    rw [List.filter_filter]
    refine List.filter_congr fun a _ => ?_
    cases a with
    | nil => rfl
    | cons x xs => simp
  rw [habs (splitNl (collapseNl s)), (collapse_key s).2, ← habs (splitNl s)]

/-- Keep predicate describing which trimmed lines survive `clean_text`:
non-empty and containing no blacklisted substring. -/
def keepLine (l : PyStr) : Bool :=
  !l.isEmpty && blacklist_keywords.all (fun bad => !(hasSub bad l))

theorem map_trim_filter (L : List PyStr) :
    (L.filter (fun l => !(trim l).isEmpty)).map trim =
      (L.map trim).filter (fun l => !l.isEmpty) := by
  induction L with
  | nil => rfl
  | cons x xs ih =>
    by_cases hx : (trim x).isEmpty
    · simp [List.filter_cons, hx, ih]
    · simp [List.filter_cons, hx, ih]

theorem clean_text_eq_spec (s : PyStr) :
    clean_text s = ((splitNl s).map trim).filter keepLine := by
  show (((splitNl (collapseNl s)).filter (fun line => !(trim line).isEmpty)).map
      trim).filter
      (fun line => blacklist_keywords.all (fun bad => !(hasSub bad line))) = _
  rw [filter_trimKeep_collapse, map_trim_filter, List.filter_filter]
  exact List.filter_congr fun a _ => by simp [keepLine, Bool.and_comm]

theorem keepLine_iff (l : PyStr) :
    keepLine l = true ↔
      l ≠ [] ∧ ∀ bad ∈ blacklist_keywords, ¬∃ p q, l = p ++ bad ++ q := by
  simp only [keepLine, Bool.and_eq_true, Bool.not_eq_true', List.all_eq_true]
  constructor
  · rintro ⟨hne, hall⟩
    refine ⟨fun h => by subst h; simp at hne, fun bad hbad hex => ?_⟩
    have hfalse := hall bad hbad
    have htrue := (hasSub_iff bad l).mpr hex
    rw [hfalse] at htrue
    exact Bool.false_ne_true htrue
  · rintro ⟨hne, hall⟩
    refine ⟨by simp [hne], fun bad hbad => ?_⟩
    rw [Bool.eq_false_iff]
    exact fun h => hall bad hbad ((hasSub_iff bad l).mp h)

/-- Variant of `clean_text` that omits the initial `re.sub(r'\n{2,}', '\n',
text)` blank-collapse step but is otherwise identical; stated by the claim
as extensionally equal to `clean_text`. -/
def clean_text_noCollapse (text : PyStr) : List PyStr :=
  let lines :=
    ((splitNl text).filter (fun line => !(trim line).isEmpty)).map trim
  lines.filter (fun line => blacklist_keywords.all (fun bad => !(hasSub bad line)))

/-- C3: the normalizer equals the pipeline that splits the input on line
breaks, trims every resulting line, and keeps exactly the non-empty,
non-blacklisted lines in their original relative order; in particular on
`"A\n\n\nB\nSign In\nC"` it returns exactly `["A", "B", "C"]`. -/
theorem C3_normalizer_split_trim_drop :
    (∀ s : PyStr, clean_text s = ((splitNl s).map trim).filter keepLine) ∧
    clean_text ("A\n\n\nB\nSign In\nC".toList) =
      ["A".toList, "B".toList, "C".toList] :=
  ⟨clean_text_eq_spec, by decide⟩

/-- C4: a trimmed split line is kept by `clean_text` iff it is non-empty and
none of the blacklist entries "Sign In", "Sign Out", "All Articles", "Home"
occurs in it as a case-sensitive substring; accordingly the line "Homework"
is dropped while the line "home" is kept. -/
theorem C4_blacklist_drop_iff :
    (∀ s : PyStr, ∀ l ∈ (splitNl s).map trim,
      (l ∈ clean_text s ↔
        l ≠ [] ∧ ∀ bad ∈ blacklist_keywords, ¬∃ p q, l = p ++ bad ++ q)) ∧
    clean_text ("Homework".toList) = [] ∧
    clean_text ("home".toList) = ["home".toList] := by
  refine ⟨?_, by decide, by decide⟩
  intro s l hl
  rw [clean_text_eq_spec, List.mem_filter]
  simp only [hl, true_and]
  exact keepLine_iff l

/-- Witness for C4: instantiated at the split line "Homework" of the input
`"x\nHomework"`. -/
theorem C4_blacklist_drop_iff_witness :
    "Homework".toList ∈ clean_text ("x\nHomework".toList) ↔
      "Homework".toList ≠ [] ∧
        ∀ bad ∈ blacklist_keywords, ¬∃ p q, "Homework".toList = p ++ bad ++ q :=
  C4_blacklist_drop_iff.1 ("x\nHomework".toList) ("Homework".toList) (by decide)

/-- C9: `clean_text` is extensionally equal to the variant without the
initial blank-collapse substitution — the later split/trim/drop-empty steps
already discard every line the collapse would have removed. -/
theorem C9_collapse_redundant :
    ∀ s : PyStr, clean_text s = clean_text_noCollapse s := by
  intro s
  show (((splitNl (collapseNl s)).filter
      (fun line => !(trim line).isEmpty)).map trim).filter
      (fun line => blacklist_keywords.all (fun bad => !(hasSub bad line))) =
    (((splitNl s).filter (fun line => !(trim line).isEmpty)).map trim).filter
      (fun line => blacklist_keywords.all (fun bad => !(hasSub bad line)))
  rw [filter_trimKeep_collapse]

/-- C10: every line produced by `clean_text` is non-empty, contains no
newline character, and is already trimmed (trimming it again changes
nothing). -/
theorem C10_output_lines_clean :
    ∀ s : PyStr, ∀ l ∈ clean_text s, l ≠ [] ∧ '\n' ∉ l ∧ trim l = l := by
  intro s l hl
  rw [clean_text_eq_spec, List.mem_filter, List.mem_map] at hl
  obtain ⟨⟨raw, hraw, rfl⟩, hkeep⟩ := hl
  refine ⟨((keepLine_iff _).mp hkeep).1, ?_, trim_idem raw⟩
  intro hmem
  exact mem_splitNl_no_nl s raw hraw (mem_of_mem_trim hmem)

/-- Witness for C10: instantiated at the output line "a b" of the input
`" a b \n\nHome\n"`. -/
theorem C10_output_lines_clean_witness :
    "a b".toList ≠ [] ∧ '\n' ∉ "a b".toList ∧ trim "a b".toList = "a b".toList :=
  C10_output_lines_clean (" a b \n\nHome\n".toList) ("a b".toList) (by decide)

/-!
Lemmas about the extractor.
-/

theorem findTagN_eq_find? (nm : String) (n : Node) :
    findTagN nm n = (preorderN n).find? (isNamed nm) := by
  refine @Node.rec
    (fun n => findTagN nm n = (preorderN n).find? (isNamed nm))
    (fun d => findTag nm d = (preorder d).find? (isNamed nm))
    ?_ ?_ ?_ ?_ n
  · intro s
    simp [findTagN, preorderN, isNamed, List.find?]
  · intro name a c ih
    by_cases hname : name = nm
    · simp [findTagN, preorderN, isNamed, hname, List.find?]
    · simp [findTagN, preorderN, isNamed, hname, List.find?, ih]
  · rfl
  · intro hd tl ihh iht
    simp only [findTag, preorder, List.find?_append, ihh, iht]
    cases (preorderN hd).find? (isNamed nm) <;> simp [Option.or]

theorem findTag_eq_find? (nm : String) (d : Doc) :
    findTag nm d = (preorder d).find? (isNamed nm) := by
  induction d with
  | nil => rfl
  | cons n ns ih =>
    simp only [findTag, preorder, List.find?_append, findTagN_eq_find? nm n, ih]
    cases (preorderN n).find? (isNamed nm) <;> simp [Option.or]

theorem find?_of_any_false {L : List Node} {p : Node → Bool}
    (h : L.any p = false) : L.find? p = none := by
  rw [List.find?_eq_none]
  exact List.any_eq_false.mp h

theorem find?_of_any_true {L : List Node} {p : Node → Bool}
    (h : L.any p = true) : ∃ x, L.find? p = some x := by
  obtain ⟨x, hx, hpx⟩ := List.any_eq_true.mp h
  exact Option.isSome_iff_exists.mp (List.find?_isSome.mpr ⟨x, hx, hpx⟩)

/-- C7: content-source priority.  If any `<main>` element is present in the
parsed document, the content node is the first `<main>` in document order —
whatever its contents; otherwise, if any `<article>` is present, the first
`<article>`; otherwise, if any `<body>` is present, the first `<body>`;
otherwise the extracted content is the empty string. -/
theorem C7_content_priority (doc : Doc) :
    ((preorder doc).any (isNamed "main") = true →
      contentNode doc = (preorder doc).find? (isNamed "main")) ∧
    ((preorder doc).any (isNamed "main") = false →
      (preorder doc).any (isNamed "article") = true →
      contentNode doc = (preorder doc).find? (isNamed "article")) ∧
    ((preorder doc).any (isNamed "main") = false →
      (preorder doc).any (isNamed "article") = false →
      (preorder doc).any (isNamed "body") = true →
      contentNode doc = (preorder doc).find? (isNamed "body")) ∧
    ((preorder doc).any (isNamed "main") = false →
      (preorder doc).any (isNamed "article") = false →
      (preorder doc).any (isNamed "body") = false →
      contentNode doc = none ∧ contentTextOf doc = []) := by
  have hm := findTag_eq_find? "main" doc
  have ha := findTag_eq_find? "article" doc
  have hb := findTag_eq_find? "body" doc
  refine ⟨?_, ?_, ?_, ?_⟩
  · intro h₁
    obtain ⟨m, hm'⟩ := find?_of_any_true h₁
    unfold contentNode
    rw [hm, hm']
  · intro h₁ h₂
    obtain ⟨a, ha'⟩ := find?_of_any_true h₂
    unfold contentNode
    rw [hm, find?_of_any_false h₁, ha, ha']
  · intro h₁ h₂ h₃
    unfold contentNode
    rw [hm, find?_of_any_false h₁, ha, find?_of_any_false h₂, hb]
  · intro h₁ h₂ h₃
    have hnode : contentNode doc = none := by
      unfold contentNode
      rw [hm, find?_of_any_false h₁, ha, find?_of_any_false h₂, hb,
        find?_of_any_false h₃]
    exact ⟨hnode, by unfold contentTextOf; rw [hnode]⟩

/-- Document with a `<body>` but neither `<main>` nor `<article>`, used to
instantiate the content-priority theorem. -/
def bodyDoc : Doc :=
  [Node.elem "html" [] [Node.elem "body" [] [Node.text "x".toList]]]

/-- Witness for C7: on `bodyDoc` the third priority branch applies. -/
theorem C7_content_priority_witness :
    contentNode bodyDoc = (preorder bodyDoc).find? (isNamed "body") :=
  (C7_content_priority bodyDoc).2.2.1 (by decide) (by decide) (by decide)

/-!
The title claim.

The spec's own notion of the "text" of an element keeps the visible text of
nested tags, so it is the concatenation of the descendant strings.
-/

/-- Text of an element in the sense of the spec's text extraction: the
concatenated descendant strings ("strips nested tags but keeps visible
text"). -/
def nodeText (n : Node) : PyStr := (nodeStrings n).flatten

/-- Document whose `<title>` holds text plus nested markup. -/
def titleDoc : Doc :=
  [Node.elem "title" []
    [Node.text "A".toList, Node.elem "b" [] [Node.text "B".toList]]]

/-- C8 counterexample: on `titleDoc` the first `<title>` element has text
"AB" (trimmed), yet the code extracts the empty title, because
`soup.title.string` is `None` for a title with more than one child.  So the
extracted title does not always equal the trimmed text of the first
`<title>` element. -/
theorem C8_title_counterexample :
    findTag "title" titleDoc =
      some (Node.elem "title" []
        [Node.text "A".toList, Node.elem "b" [] [Node.text "B".toList]]) ∧
    trim (nodeText (Node.elem "title" []
      [Node.text "A".toList, Node.elem "b" [] [Node.text "B".toList]])) =
      "AB".toList ∧
    titleOf titleDoc = [] ∧
    ([] : PyStr) ≠ "AB".toList :=
  ⟨rfl, by decide, rfl, by decide⟩

/-- C8 (amended): the extracted title is the trimmed `.string` of the first
`<title>` element — the single text node reached through a chain of
single-child tags — and is the empty string when no `<title>` exists or the
first `<title>` has no such single string; the test-vector document
`<main><h1>T</h1><p>Body</p></main>` yields `title = ""` and
`headers = ["T"]`. -/
theorem C8_title_amended :
    (∀ doc : Doc,
      (findTag "title" doc = none → titleOf doc = []) ∧
      (∀ t, findTag "title" doc = some t → tagString t = none →
        titleOf doc = []) ∧
      (∀ t s, findTag "title" doc = some t → tagString t = some s →
        titleOf doc = trim s)) ∧
    titleOf exDoc = [] ∧ headersOf exDoc = ["T".toList] := by
  refine ⟨?_, by decide, by decide⟩
  intro doc
  refine ⟨?_, ?_, ?_⟩
  · intro h; simp [titleOf, h]
  · intro t ht hs; simp [titleOf, ht, hs]
  · intro t s ht hs
    simp only [titleOf, ht, hs]
    cases s with
    | nil => simp [trim_nil]
    | cons c cs => simp

/-- Witness for C8: instantiated at `titleDoc`, whose title wraps two
children and therefore has no `.string`. -/
theorem C8_title_amended_witness : titleOf titleDoc = [] :=
  (C8_title_amended.1 titleDoc).2.1
    (Node.elem "title" []
      [Node.text "A".toList, Node.elem "b" [] [Node.text "B".toList]])
    rfl rfl

/-!
The batch invariants and the transport boundary.
-/

/-- The slot is a `ScrapeResult` record. -/
def isSuccess : Outcome → Bool
  | .success _ => true
  | .failure _ _ => false

/-- The slot is a failure record `{url, error}`. -/
def isFailure : Outcome → Bool
  | .success _ => false
  | .failure _ _ => true

theorem scrape_batch_length (urls : List String) (net : Nat → NetResult) :
    (scrape_batch urls net).length = urls.length := by
  induction urls generalizing net with
  | nil => rfl
  | cons u us ih => simp [scrape_batch, ih]

theorem scrape_batch_getElem? (urls : List String) (net : Nat → NetResult) :
    ∀ i, (scrape_batch urls net)[i]? =
      (urls[i]?).map (fun u => outcomeOf u (net i)) := by
  induction urls generalizing net with
  | nil => intro i; simp [scrape_batch]
  | cons u us ih =>
    intro i
    cases i with
    | zero => simp [scrape_batch]
    | succ j => simpa [scrape_batch] using ih (fun k => net (k + 1)) j

theorem outcomeUrl_outcomeOf (u : String) (net : NetResult) :
    outcomeUrl (outcomeOf u net) = u := by
  unfold outcomeOf scrape_url
  cases fetch_html u net with
  | ok doc => rfl
  | error e => rfl

theorem isSuccess_xor_isFailure (o : Outcome) :
    (isSuccess o = true ∨ isFailure o = true) ∧
      ¬(isSuccess o = true ∧ isFailure o = true) := by
  cases o with
  | success r => exact ⟨Or.inl rfl, by rintro ⟨-, h⟩; cases h⟩
  | failure u e => exact ⟨Or.inr rfl, by rintro ⟨h, -⟩; cases h⟩

/-- C1: for every batch, the output has exactly one slot per input URL, in
input order: slot `i` exists (`some`), is computed from the URL at index
`i` (so it echoes that URL), and is exactly one of a `ScrapeResult` record
or a failure record — never neither and never both. -/
theorem C1_batch_shape (urls : List String) (net : Nat → NetResult) (i : Nat)
    (h : i < urls.length) :
    (scrape_batch urls net).length = urls.length ∧
    (scrape_batch urls net)[i]? = some (outcomeOf (urls[i]) (net i)) ∧
    outcomeUrl (outcomeOf (urls[i]) (net i)) = urls[i] ∧
    (isSuccess (outcomeOf (urls[i]) (net i)) = true ∨
      isFailure (outcomeOf (urls[i]) (net i)) = true) ∧
    ¬(isSuccess (outcomeOf (urls[i]) (net i)) = true ∧
      isFailure (outcomeOf (urls[i]) (net i)) = true) := by
  refine ⟨scrape_batch_length urls net, ?_, outcomeUrl_outcomeOf _ _,
    (isSuccess_xor_isFailure _).1, (isSuccess_xor_isFailure _).2⟩
  rw [scrape_batch_getElem?]
  simp [List.getElem?_eq_getElem h]

/-- Network oracle that times out every request. -/
def wNet : Nat → NetResult := fun _ => NetResult.timeout

/-- Witness for C1 on a one-URL batch whose request times out. -/
theorem C1_batch_shape_witness :
    (scrape_batch ["http://a"] wNet).length =
      (["http://a"] : List String).length ∧
    (scrape_batch ["http://a"] wNet)[0]? =
      some (outcomeOf "http://a" (wNet 0)) ∧
    outcomeUrl (outcomeOf "http://a" (wNet 0)) = "http://a" ∧
    (isSuccess (outcomeOf "http://a" (wNet 0)) = true ∨
      isFailure (outcomeOf "http://a" (wNet 0)) = true) ∧
    ¬(isSuccess (outcomeOf "http://a" (wNet 0)) = true ∧
      isFailure (outcomeOf "http://a" (wNet 0)) = true) :=
  C1_batch_shape ["http://a"] wNet 0 (by decide)

/-- C2: slot `i` of the batch depends only on the URL at index `i` and the
behaviour of request `i` (so a failure of any sibling request never changes
it), the batch always keeps its full length, and whenever the per-URL
pipeline raises, the error is converted into that URL's failure record
`{url, error}` in that slot. -/
theorem C2_error_isolation (urls : List String) (net net' : Nat → NetResult)
    (i : Nat) (h : i < urls.length) (hagree : net i = net' i) :
    (scrape_batch urls net)[i]? = (scrape_batch urls net')[i]? ∧
    (scrape_batch urls net).length = urls.length ∧
    ∀ e, scrape_url (urls[i]) (net i) = Except.error e →
      (scrape_batch urls net)[i]? =
        some (Outcome.failure (urls[i]) (strOfExc e)) := by
  refine ⟨?_, scrape_batch_length urls net, ?_⟩
  · rw [scrape_batch_getElem?, scrape_batch_getElem?, hagree]
  · intro e he
    rw [scrape_batch_getElem?]
    simp [List.getElem?_eq_getElem h, outcomeOf, he]

/-- Network oracle: request 0 times out, the others succeed. -/
def wNet₂ : Nat → NetResult :=
  fun i => if i = 0 then NetResult.timeout else NetResult.response 200 exDoc

/-- Witness for C2: in a two-URL batch whose first request times out while
the sibling oracle differs on every other request, slot 0 is the failure
record for the first URL. -/
theorem C2_error_isolation_witness :
    (scrape_batch ["http://a", "http://b"] wNet₂)[0]? =
      some (Outcome.failure "http://a"
        (strOfExc ⟨500,
          "Error parsing HTML for " ++ "http://a" ++ ": " ++
            strOfExc ⟨504, "Timeout while fetching " ++ "http://a"⟩⟩)) :=
  (C2_error_isolation ["http://a", "http://b"] wNet₂ wNet 0 (by decide)
    rfl).2.2
    ⟨500, "Error parsing HTML for " ++ "http://a" ++ ": " ++
      strOfExc ⟨504, "Timeout while fetching " ++ "http://a"⟩⟩
    rfl

/-- Transport boundary (lines 122–125): the global `HTTPException` handler
renders a JSON body `{"error": detail}` with the exception's status code. -/
structure ErrorResponse where
  status_code : Nat
  error : String

/-- Model of `http_exception_handler` (lines 123–125). -/
def http_exception_handler (e : HTTPExc) : ErrorResponse :=
  ⟨e.status_code, e.detail⟩

/-- Response of the single-URL endpoint. -/
inductive SingleResponse where
  | ok (r : ScrapeResult)
  | err (resp : ErrorResponse)

/-- Model of the `/scrape/single` endpoint (lines 97–101): a raised
`HTTPException` reaches the global handler and becomes the whole response. -/
def scrape_single (url : String) (net : NetResult) : SingleResponse :=
  match scrape_url url net with
  | .ok r => .ok r
  | .error e => .err (http_exception_handler e)

/-- C5 evaluation: a timed-out fetch is classified by `fetch_html` as a
504 carrying the URL, but `scrape_url` catches the exception and re-raises
it as a 500 "Error parsing HTML" error, so the transport boundary renders
status 500 — not 504 as the claim states. -/
theorem C5_timeout_rendered_500 (url : String) :
    fetch_html url NetResult.timeout =
      Except.error ⟨504, "Timeout while fetching " ++ url⟩ ∧
    scrape_url url NetResult.timeout =
      Except.error ⟨500, "Error parsing HTML for " ++ url ++ ": " ++
        strOfExc ⟨504, "Timeout while fetching " ++ url⟩⟩ ∧
    scrape_single url NetResult.timeout =
      SingleResponse.err ⟨500, "Error parsing HTML for " ++ url ++ ": " ++
        strOfExc ⟨504, "Timeout while fetching " ++ url⟩⟩ :=
  ⟨rfl, rfl, rfl⟩

/-- C6 evaluation: for an upstream 404, the `HTTPException(404, ...)`
raised on line 47 is caught by `fetch_html`'s own `except Exception`
clause, so `fetch_html` already reports a 500; `scrape_url` wraps it again
and the transport boundary renders status 500 — not the upstream's 404 as
the claim states. -/
theorem C6_non200_rendered_500 (url : String) (body : Doc) :
    fetch_html url (NetResult.response 404 body) =
      Except.error ⟨500, "Error fetching " ++ url ++ ": " ++
        strOfExc ⟨404, "Failed to fetch " ++ url⟩⟩ ∧
    scrape_single url (NetResult.response 404 body) =
      SingleResponse.err ⟨500, "Error parsing HTML for " ++ url ++ ": " ++
        strOfExc ⟨500, "Error fetching " ++ url ++ ": " ++
          strOfExc ⟨404, "Failed to fetch " ++ url⟩⟩⟩ :=
  ⟨rfl, rfl⟩

end WebScraper
